import Mathlib

/-!
Shallow embedding of `amazon_scraper.py` (Amazon_Product_Scraper).

External effects (network responses, randomness, wall-clock sleeping) are made
explicit: strategy behaviour is an oracle argument, the per-attempt shuffle is
an argument constrained to be a permutation, and sleeps are recorded as events
in a trace returned alongside the result.
-/

/-! ### Substring matching (Python's `in` operator on strings) -/

/-- `matchesAt needle hay` is true when `needle` is an initial segment of `hay`. -/
def matchesAt : List Char → List Char → Bool
  | [], _ => true
  | _ :: _, [] => false
  | a :: as, b :: bs => a = b && matchesAt as bs

/-- `containsSub needle hay` is true when `needle` occurs contiguously in `hay`
(Python `needle in hay` for strings). -/
def containsSub (needle : List Char) : List Char → Bool
  | [] => matchesAt needle []
  | c :: t => matchesAt needle (c :: t) || containsSub needle t

/-- Python `needle in hay` for `String`s. -/
def strContains (hay needle : String) : Bool :=
  containsSub needle.data hay.data

/-- Python `str.lower()`, as a per-character map over the underlying
character list (the markers and content compared here are ASCII). -/
def strToLower (s : String) : String :=
  ⟨s.data.map Char.toLower⟩

/-! ### Challenge Classifier: `AmazonScraper._is_valid_page` -/

/-- The fixed marker list from `_is_valid_page` (lines 672-679). -/
def challenge_indicators : List String :=
  ["captcha",
   "robot check",
   "verify you're a human",
   "checking your browser",
   "sorry, we just need to make sure you're not a robot",
   "to discuss automated access to amazon data please contact"]

/-- `AmazonScraper._is_valid_page` (lines 658-687).  `none` models Python
`None`; `if not html` is false for both `None` and the empty string.  The
loop returning `False` on the first indicator found in `html.lower()` and
`True` otherwise is the negation of an existence check. -/
def is_valid_page : Option String → Bool
  | none => false
  | some html =>
    if html == "" then false
    else
      let html_lower := strToLower html
      !(challenge_indicators.any fun indicator => strContains html_lower indicator)

/-! ### Fetch Orchestrator: `AmazonScraper._get_page` -/

/-- The four acquisition strategies of `_get_page` (lines 552-557). -/
inductive MethodId where
  | browser
  | cloudscraperMethod
  | tlsClientMethod
  | plainRequests
deriving DecidableEq, Repr

/-- The strategy list built by `_get_page`: all four methods, with the
browser method removed when `use_browser` is false (lines 552-561). -/
def methods (use_browser : Bool) : List MethodId :=
  let ms : List MethodId :=
    [.browser, .cloudscraperMethod, .tlsClientMethod, .plainRequests]
  if use_browser then ms else ms.erase .browser

/-- Outcome of one strategy invocation `method(url)`: it either raises an
exception or returns a value, which is Python `None` or a string. -/
inductive MethodResult where
  | exn (msg : String)
  | page (html : Option String)
deriving DecidableEq, Repr

/-- Whether a strategy invocation makes `_get_page` return: the value is a
non-empty string (Python truthiness of `html`) that the classifier accepts
(`if html and self._is_valid_page(html)`, line 571). -/
def succeedsB : MethodResult → Bool
  | .page (some h) => (h != "") && is_valid_page (some h)
  | _ => false

/-- Observable events of a `_get_page` run: strategy invocations (tagged with
the 0-based attempt index) and backoff sleeps. -/
inductive Event where
  | invoke (attempt : Nat) (m : MethodId)
  | sleep (d : Nat)
deriving DecidableEq, Repr

/-- The backoff value slept after the 0-based attempt `attempt` fails:
`self.retry_delay * (attempt + 1)` (line 579). -/
def backoff_delay (retry_delay attempt : Nat) : Nat :=
  retry_delay * (attempt + 1)

/-- The value a strategy invocation produced: `none` for an exception (the
`except` arm discards it) and the returned value otherwise. -/
def resultOf : MethodResult → Option String
  | .exn _ => none
  | .page h => h

/-- The inner loop of `_get_page` (lines 568-575): try each method of the
permuted order in turn; an exception or a falsy/invalid value (the three
`succeedsB = false` cases) falls through to the next method; a truthy valid
value is returned at once.  `behave m` is the oracle outcome of invoking
method `m` during this attempt; the returned trace lists the methods actually
invoked. -/
def try_methods (behave : MethodId → MethodResult) (a : Nat) :
    List MethodId → Option String × List Event
  | [] => (none, [])
  | m :: ms =>
    if succeedsB (behave m) then
      (resultOf (behave m), [.invoke a m])
    else
      let r := try_methods behave a ms
      (r.1, .invoke a m :: r.2)

/-- The retry loop of `_get_page` (lines 564-582) over the remaining 0-based
attempt indices.  After an attempt in which no method produced valid content,
the code sleeps `retry_delay * (attempt + 1)` — also after the final attempt —
and `None` is returned once all attempts are exhausted. -/
def get_page_run (behave : Nat → MethodId → MethodResult)
    (perms : Nat → List MethodId) (retry_delay : Nat) :
    List Nat → Option String × List Event
  | [] => (none, [])
  | a :: rest =>
    let r := try_methods (behave a) a (perms a)
    match r.1 with
    | some h => (some h, r.2)
    | none =>
      let r2 := get_page_run behave perms retry_delay rest
      (r2.1, r.2 ++ Event.sleep (backoff_delay retry_delay a) :: r2.2)

/-- `AmazonScraper._get_page` (lines 542-582).  `behave a m` is the oracle
outcome of invoking method `m` during attempt `a`; `perms a` is the order
`random.shuffle` produced for attempt `a` (constrained to a permutation of
`methods use_browser` in the theorems); the result pairs the returned value
(`None` on exhaustion) with the event trace. -/
def get_page (use_browser : Bool) (behave : Nat → MethodId → MethodResult)
    (perms : Nat → List MethodId) (max_retries retry_delay : Nat) :
    Option String × List Event :=
  get_page_run behave perms retry_delay (List.range max_retries)

/-- A trace event is a strategy invocation (as opposed to a sleep). -/
def isInvoke : Event → Bool
  | .invoke _ _ => true
  | .sleep _ => false

/-! ### Public operations: `search_products` and `get_product_details` -/

/-- `AmazonScraper.search_products` (lines 487-518): fetch the search-results
page via `_get_page`; `if not html` (fetch failed, i.e. `None` or an empty
string) return the empty list, otherwise hand the content to
`_parse_search_results`.  HTML extraction is the external Record Extractor
(BeautifulSoup), passed here as `parse`; each product dictionary is a list of
key/value pairs. -/
def search_products (parse : String → List (List (String × String)))
    (use_browser : Bool) (behave : Nat → MethodId → MethodResult)
    (perms : Nat → List MethodId) (max_retries retry_delay : Nat) :
    List (List (String × String)) :=
  match (get_page use_browser behave perms max_retries retry_delay).1 with
  | none => []
  | some html => if html == "" then [] else parse html

/-- `AmazonScraper.get_product_details` (lines 520-540): fetch the product
page via `_get_page`; `if not html` return the empty dictionary (modelled as
the empty key/value list), otherwise hand the content and the product id to
`_parse_product_details` (external, passed as `parse`). -/
def get_product_details (parse : String → String → List (String × String))
    (product_id : String) (use_browser : Bool)
    (behave : Nat → MethodId → MethodResult) (perms : Nat → List MethodId)
    (max_retries retry_delay : Nat) : List (String × String) :=
  match (get_page use_browser behave perms max_retries retry_delay).1 with
  | none => []
  | some html => if html == "" then [] else parse html product_id

/-! ### ProxyManager (lines 50-105) -/

/-- `ProxyManager` state: the proxy list and the rotation cursor. -/
structure ProxyManager where
  proxies : List String
  current_index : Nat
deriving DecidableEq, Repr

/-- `ProxyManager.__init__` with an in-memory proxy list (line 61-66): the
list is taken as given — `extend` does not de-duplicate — and the cursor
starts at 0.  (File loading, which does de-duplicate, is an external input
not modelled.) -/
def ProxyManager.init (proxies : List String) : ProxyManager :=
  { proxies := proxies, current_index := 0 }

/-- `ProxyManager.get_proxy` (lines 78-94).  The outer `Option` models
faulting: `self.proxies[self.current_index]` raises `IndexError` when the
cursor is out of range (`none`).  Otherwise the call returns Python `None`
for an empty pool or the proxy at the cursor (the `{'http': p, 'https': p}`
dict is represented by its single proxy string `p`), advancing the cursor
modulo the pool size. -/
def get_proxy (s : ProxyManager) : Option (Option String × ProxyManager) :=
  if s.proxies = [] then
    some (none, s)
  else if h : s.current_index < s.proxies.length then
    some (some (s.proxies.get ⟨s.current_index, h⟩),
          { s with current_index := (s.current_index + 1) % s.proxies.length })
  else
    none

/-- `ProxyManager.mark_bad_proxy` (lines 96-105): remove the first occurrence
of `proxy` from the list when present (`list.remove`); the cursor is not
adjusted. -/
def mark_bad_proxy (s : ProxyManager) (proxy : String) : ProxyManager :=
  { s with proxies := s.proxies.erase proxy }

/-- An interleaved operation on the proxy pool. -/
inductive PMOp where
  | next
  | markBad (p : String)
deriving DecidableEq, Repr

/-- Run a sequence of `get_proxy` / `mark_bad_proxy` operations, collecting
the values `get_proxy` returned; `none` when some `get_proxy` call faulted. -/
def pm_run (s : ProxyManager) : List PMOp → Option (List (Option String) × ProxyManager)
  | [] => some ([], s)
  | PMOp.next :: ops =>
    match get_proxy s with
    | none => none
    | some (o, s') =>
      match pm_run s' ops with
      | none => none
      | some (outs, sf) => some (o :: outs, sf)
  | PMOp.markBad p :: ops => pm_run (mark_bad_proxy s p) ops

/-! ### CookieManager (lines 158-205) -/

/-- A cookie as `http.cookiejar` keys it: domain, path, name, and its value. -/
structure Cookie where
  domain : String
  path : String
  name : String
  value : String
deriving DecidableEq, Repr

/-- The cookie jar keyed the way `cookiejar` stores cookies:
`self._cookies[domain][path][name] = cookie`, modelled as a partial map from
the (domain, path, name) triple to the cookie value. -/
def CookieJarMap : Type := String × String × String → Option String

/-- The storage key of a cookie. -/
def cookieKey (c : Cookie) : String × String × String :=
  (c.domain, c.path, c.name)

/-- `cookiejar.set_cookie`: store the cookie under its key, overwriting any
same-keyed entry. -/
def set_cookie (jar : CookieJarMap) (c : Cookie) : CookieJarMap :=
  fun k => if k = cookieKey c then some c.value else jar k

/-- `CookieManager.update_from_response` (lines 188-196): `set_cookie` each
cookie of the response in order. -/
def update_from_response (jar : CookieJarMap) (cookies : List Cookie) : CookieJarMap :=
  cookies.foldl set_cookie jar

/-- The value carried by the last cookie of `cookies` stored under key `k`,
if any. -/
def lastValueFor (cookies : List Cookie) (k : String × String × String) : Option String :=
  cookies.foldl (fun acc c => if k = cookieKey c then some c.value else acc) none

/-! ### CloudflareBypass (lines 211-305) -/

/-- An HTTP session as the bypass configures it: the user agent its headers
carry (the other, fixed headers do not vary between reinitializations). -/
structure Session where
  user_agent : String
deriving DecidableEq, Repr

/-- `CloudflareBypass` state: the cloudscraper session, the tls_client
session, and the position in the user-agent rotator's stream (the stream
itself, `uas`, stands for `UserAgentRotator.get_random_user_agent`'s
successive random draws). -/
structure CFState where
  scraper : Option Session
  tlsClient : Option Session
  uaIndex : Nat
deriving DecidableEq, Repr

/-- `CloudflareBypass.init_scrapers` (lines 226-267): draw one fresh user
agent from the rotator and build both sessions anew carrying it. -/
def init_scrapers (uas : Nat → String) (s : CFState) : CFState :=
  { scraper := some { user_agent := uas s.uaIndex },
    tlsClient := some { user_agent := uas s.uaIndex },
    uaIndex := s.uaIndex + 1 }

/-- `CloudflareBypass.get_with_cloudscraper` (lines 269-286): `resp` is the
oracle outcome of `self.scraper.get(url)`; on an exception the scrapers are
reinitialized with a new user agent and the exception is re-raised
(propagated as `Except.error`). -/
def get_with_cloudscraper (uas : Nat → String) (s : CFState)
    (resp : Except String String) : Except String String × CFState :=
  match resp with
  | .ok r => (.ok r, s)
  | .error e => (.error e, init_scrapers uas s)

/-- `CloudflareBypass.get_with_tls_client` (lines 288-305): same failure
protocol as `get_with_cloudscraper`, for the tls_client session. -/
def get_with_tls_client (uas : Nat → String) (s : CFState)
    (resp : Except String String) : Except String String × CFState :=
  match resp with
  | .ok r => (.ok r, s)
  | .error e => (.error e, init_scrapers uas s)

/-! ### Theorems -/

theorem matchesAt_iff_append (needle hay : List Char) :
    matchesAt needle hay = true ↔ ∃ t, hay = needle ++ t := by
  induction needle generalizing hay with
  | nil => exact ⟨fun _ => ⟨hay, by simp⟩, fun _ => rfl⟩
  | cons a as ih =>
    cases hay with
    | nil => simp [matchesAt]
    | cons b bs =>
      simp only [matchesAt, Bool.and_eq_true, decide_eq_true_eq, ih, List.cons_append]
      constructor
      · rintro ⟨rfl, t, rfl⟩; exact ⟨t, rfl⟩
      · rintro ⟨t, ht⟩
        injection ht with h1 h2
        exact ⟨h1.symm, t, h2⟩

theorem containsSub_iff_infix (needle hay : List Char) :
    containsSub needle hay = true ↔ needle <:+: hay := by
  induction hay with
  | nil =>
    cases needle with
    | nil => simp [containsSub, matchesAt]
    | cons a as => simp [containsSub, matchesAt]
  | cons c t ih =>
    simp only [containsSub, Bool.or_eq_true, matchesAt_iff_append, ih]
    constructor
    · rintro (⟨s, hs⟩ | hinf)
      · exact ⟨[], s, by simpa using hs.symm⟩
      · exact hinf.trans (List.infix_cons (List.infix_refl t))
    · rintro ⟨pre, suf, hsplit⟩
      cases pre with
      | nil => exact Or.inl ⟨suf, by simpa using hsplit.symm⟩
      | cons p ps =>
        right
        rw [List.cons_append, List.cons_append] at hsplit
        injection hsplit with h1 h2
        exact ⟨ps, suf, h2⟩

/-- Claim C2: a content string is classified CHALLENGE (`false`) exactly when it
is empty or contains one of the configured markers case-insensitively (the
markers are lowercase and are matched against the lowercased content); null
(`None`) and empty content are always CHALLENGE. -/
theorem c2_classifier_marker_match (c : String) :
    (is_valid_page (some c) = false ↔
      c = "" ∨ ∃ ind ∈ challenge_indicators, strContains (strToLower c) ind = true)
    ∧ is_valid_page (some "") = false
    ∧ is_valid_page none = false := by
  refine ⟨?_, by decide, rfl⟩
  by_cases hc : c = ""
  · subst hc; simp [is_valid_page]
  · simp only [is_valid_page, beq_iff_eq, if_neg hc]
    simp [List.any_eq_true, hc]

theorem try_methods_nil (b : MethodId → MethodResult) (a : Nat) :
    try_methods b a [] = (none, []) := rfl

theorem try_methods_cons_succ {b : MethodId → MethodResult} {m : MethodId}
    (a : Nat) (ms : List MethodId) (hb : succeedsB (b m) = true) :
    try_methods b a (m :: ms) = (resultOf (b m), [.invoke a m]) := by
  simp [try_methods, hb]

theorem try_methods_cons_fail {b : MethodId → MethodResult} {m : MethodId}
    (a : Nat) (ms : List MethodId) (hb : succeedsB (b m) = false) :
    try_methods b a (m :: ms) =
      ((try_methods b a ms).1, .invoke a m :: (try_methods b a ms).2) := by
  simp [try_methods, hb]

theorem succeedsB_eq_true {r : MethodResult} (h : succeedsB r = true) :
    ∃ s, r = .page (some s) ∧ resultOf r = some s ∧ is_valid_page (some s) = true := by
  cases r with
  | exn msg => simp [succeedsB] at h
  | page html =>
    cases html with
    | none => simp [succeedsB] at h
    | some s =>
      refine ⟨s, rfl, rfl, ?_⟩
      simp only [succeedsB, Bool.and_eq_true] at h
      exact h.2

theorem try_methods_fst_valid (b : MethodId → MethodResult) (a : Nat) :
    ∀ ms h, (try_methods b a ms).1 = some h → is_valid_page (some h) = true := by
  intro ms
  induction ms with
  | nil => intro h hh; simp [try_methods_nil] at hh
  | cons m ms ih =>
    intro h hh
    by_cases hb : succeedsB (b m) = true
    · rw [try_methods_cons_succ a ms hb] at hh
      obtain ⟨s, _, hres, hval⟩ := succeedsB_eq_true hb
      simp only [hres] at hh
      injection hh with hh
      exact hh ▸ hval
    · rw [try_methods_cons_fail a ms (Bool.eq_false_iff.mpr hb)] at hh
      exact ih h hh

theorem get_page_run_nil (b : Nat → MethodId → MethodResult)
    (p : Nat → List MethodId) (d : Nat) :
    get_page_run b p d [] = (none, []) := rfl

theorem get_page_run_cons_succ {b : Nat → MethodId → MethodResult}
    {p : Nat → List MethodId} {a : Nat} {h : String} (d : Nat) (rest : List Nat)
    (hr : (try_methods (b a) a (p a)).1 = some h) :
    get_page_run b p d (a :: rest) = (some h, (try_methods (b a) a (p a)).2) := by
  simp [get_page_run, hr]

theorem get_page_run_cons_fail {b : Nat → MethodId → MethodResult}
    {p : Nat → List MethodId} {a : Nat} (d : Nat) (rest : List Nat)
    (hr : (try_methods (b a) a (p a)).1 = none) :
    get_page_run b p d (a :: rest) =
      ((get_page_run b p d rest).1,
       (try_methods (b a) a (p a)).2 ++
         Event.sleep (backoff_delay d a) :: (get_page_run b p d rest).2) := by
  simp [get_page_run, hr]

theorem get_page_run_fst_valid (b : Nat → MethodId → MethodResult)
    (p : Nat → List MethodId) (d : Nat) :
    ∀ attempts h, (get_page_run b p d attempts).1 = some h →
      is_valid_page (some h) = true := by
  intro attempts
  induction attempts with
  | nil => intro h hh; simp [get_page_run_nil] at hh
  | cons a rest ih =>
    intro h hh
    cases hr : (try_methods (b a) a (p a)).1 with
    | some s =>
      rw [get_page_run_cons_succ d rest hr] at hh
      injection hh with hh
      exact hh ▸ try_methods_fst_valid (b a) a (p a) s hr
    | none =>
      rw [get_page_run_cons_fail d rest hr] at hh
      exact ih h hh

/-- Claim C1: whenever `_get_page` returns content rather than `None`, that
content re-classifies as VALID under `_is_valid_page`; CHALLENGE content is
never returned. -/
theorem c1_result_reclassifies_valid (use_browser : Bool)
    (behave : Nat → MethodId → MethodResult) (perms : Nat → List MethodId)
    (max_retries retry_delay : Nat) (h : String)
    (hres : (get_page use_browser behave perms max_retries retry_delay).1 = some h) :
    is_valid_page (some h) = true :=
  get_page_run_fst_valid behave perms retry_delay (List.range max_retries) h hres

/-- Concrete instance of C1: a run that succeeds with content "ok", whose
result indeed re-classifies VALID. -/
theorem c1_result_reclassifies_valid_witness :
    (get_page true (fun _ _ => .page (some "ok")) (fun _ => methods true) 3 5).1
        = some "ok"
    ∧ is_valid_page (some "ok") = true :=
  ⟨by decide,
   c1_result_reclassifies_valid true (fun _ _ => .page (some "ok"))
     (fun _ => methods true) 3 5 "ok" (by decide)⟩

theorem try_methods_all_fail (b : MethodId → MethodResult) (a : Nat) :
    ∀ ms, (∀ m ∈ ms, succeedsB (b m) = false) →
      try_methods b a ms = (none, ms.map (Event.invoke a)) := by
  intro ms
  induction ms with
  | nil => intro _; rfl
  | cons m ms ih =>
    intro hall
    rw [try_methods_cons_fail a ms (hall m (List.mem_cons_self m ms)),
        ih (fun x hx => hall x (List.mem_cons_of_mem m hx))]
    rfl

theorem get_page_run_all_fail (b : Nat → MethodId → MethodResult)
    (p : Nat → List MethodId) (d : Nat)
    (hfail : ∀ a m, succeedsB (b a m) = false) :
    ∀ attempts, get_page_run b p d attempts =
      (none,
       (attempts.map fun a =>
          (p a).map (Event.invoke a) ++ [Event.sleep (backoff_delay d a)]).flatten) := by
  intro attempts
  induction attempts with
  | nil => rfl
  | cons a rest ih =>
    have htm : try_methods (b a) a (p a) = (none, (p a).map (Event.invoke a)) :=
      try_methods_all_fail (b a) a (p a) (fun m _ => hfail a m)
    rw [get_page_run_cons_fail d rest (by rw [htm]), ih, htm]
    simp

theorem sum_map_eq_length_mul {α : Type} (l : List α) (f : α → Nat) (c : Nat)
    (h : ∀ a ∈ l, f a = c) : (l.map f).sum = l.length * c := by
  induction l with
  | nil => simp
  | cons x xs ih =>
    simp only [List.map_cons, List.sum_cons, List.length_cons]
    rw [h x (List.mem_cons_self x xs), ih (fun a ha => h a (List.mem_cons_of_mem x ha))]
    ring

/-- Claim C3 (amended): when every strategy invocation is unsuccessful,
`_get_page` with `max_retries = N ≥ 1` makes exactly `N` full passes — for
each attempt it invokes every method of that attempt's shuffled order, a
permutation of the strategy list, then sleeps — and returns `None`; the total
number of invocations is `N` times the number of strategies.  The returned
value is the bare `None`: the attempt count and last classification reason
appear only in the log, not in the result. -/
theorem c3_exhaustion_full_passes (use_browser : Bool)
    (behave : Nat → MethodId → MethodResult) (perms : Nat → List MethodId)
    (N retry_delay : Nat) (hN : 1 ≤ N)
    (hfail : ∀ a m, succeedsB (behave a m) = false)
    (hperm : ∀ a, (perms a).Perm (methods use_browser)) :
    get_page use_browser behave perms N retry_delay =
      (none,
       ((List.range N).map fun a =>
          (perms a).map (Event.invoke a) ++ [Event.sleep (backoff_delay retry_delay a)]).flatten)
    ∧ ((get_page use_browser behave perms N retry_delay).2.countP isInvoke)
        = N * (methods use_browser).length := by
  have hrun := get_page_run_all_fail behave perms retry_delay hfail (List.range N)
  have heq : get_page use_browser behave perms N retry_delay =
      (none,
       ((List.range N).map fun a =>
          (perms a).map (Event.invoke a) ++ [Event.sleep (backoff_delay retry_delay a)]).flatten) := hrun
  refine ⟨heq, ?_⟩
  rw [heq]
  rw [show ((none : Option String),
       ((List.range N).map fun a =>
          (perms a).map (Event.invoke a) ++ [Event.sleep (backoff_delay retry_delay a)]).flatten).2
      = ((List.range N).map fun a =>
          (perms a).map (Event.invoke a) ++ [Event.sleep (backoff_delay retry_delay a)]).flatten
      from rfl]
  rw [List.countP_flatten, List.map_map]
  rw [sum_map_eq_length_mul (List.range N) _ (methods use_browser).length ?_]
  · rw [List.length_range]
  · intro a _
    show List.countP isInvoke
        ((perms a).map (Event.invoke a) ++ [Event.sleep (backoff_delay retry_delay a)])
      = (methods use_browser).length
    rw [List.countP_append, List.countP_map]
    have h1 : List.countP (isInvoke ∘ Event.invoke a) (perms a) = (perms a).length := by
      rw [List.countP_eq_length]
      intro x _
      rfl
    have h2 : List.countP isInvoke [Event.sleep (backoff_delay retry_delay a)] = 0 := by
      simp [List.countP_cons, isInvoke]
    rw [h1, h2, (hperm a).length_eq, Nat.add_zero]

/-- Counterexample to C3 as stated: on exhaustion `_get_page` returns the bare
`None`, which cannot carry the attempt count or last classification reason —
the returned value for `max_retries = 1` and `max_retries = 2` is the same
`None` under always-failing strategies, so no attempt count is recoverable
from the result. -/
theorem c3_counterexample_bare_none :
    (get_page true (fun _ _ => .exn "e") (fun _ => methods true) 1 5).1 = none
    ∧ (get_page true (fun _ _ => .exn "e") (fun _ => methods true) 2 5).1 = none
    ∧ (get_page true (fun _ _ => .exn "e") (fun _ => methods true) 1 5).1
        = (get_page true (fun _ _ => .exn "e") (fun _ => methods true) 2 5).1 := by
  refine ⟨by decide, by decide, by decide⟩

/-- Concrete instance of the amended C3: one attempt over the four-method
permutation, four invocations, one sleep, result `None`. -/
theorem c3_exhaustion_full_passes_witness :
    get_page true (fun _ _ => .exn "e") (fun _ => methods true) 1 5 =
      (none,
       ((List.range 1).map fun a =>
          (methods true).map (Event.invoke a) ++ [Event.sleep (backoff_delay 5 a)]).flatten)
    ∧ ((get_page true (fun _ _ => .exn "e") (fun _ => methods true) 1 5).2.countP isInvoke)
        = 1 * (methods true).length :=
  c3_exhaustion_full_passes true (fun _ _ => .exn "e") (fun _ => methods true) 1 5
    (by decide) (fun _ _ => rfl) (fun _ => List.Perm.refl _)

theorem try_methods_first_success (b : MethodId → MethodResult) (a : Nat)
    (L1 L2 : List MethodId) (mOk : MethodId)
    (hfail : ∀ m ∈ L1, succeedsB (b m) = false)
    (hok : succeedsB (b mOk) = true) :
    try_methods b a (L1 ++ mOk :: L2) =
      (resultOf (b mOk), (L1 ++ [mOk]).map (Event.invoke a)) := by
  induction L1 with
  | nil =>
    rw [List.nil_append, try_methods_cons_succ a L2 hok]
    rfl
  | cons m L1 ih =>
    rw [List.cons_append,
        try_methods_cons_fail a (L1 ++ mOk :: L2) (hfail m (List.mem_cons_self m L1)),
        ih (fun x hx => hfail x (List.mem_cons_of_mem m hx))]
    rfl

/-- Claim C5: within a single attempt, if the first `k` methods of the permuted
order are each unsuccessful (exception, `None`/non-200, or CHALLENGE content)
and the `(k+1)`th returns valid content `h`, then `_get_page` returns `h` in
that first attempt: only the first `k+1` methods are invoked, the remaining
methods are not, and no backoff sleep occurs. -/
theorem c5_first_success_short_circuits (use_browser : Bool)
    (behave : Nat → MethodId → MethodResult) (perms : Nat → List MethodId)
    (N retry_delay : Nat) (L1 L2 : List MethodId) (mOk : MethodId) (h : String)
    (hN : 1 ≤ N)
    (hord : perms 0 = L1 ++ mOk :: L2)
    (hfail : ∀ m ∈ L1, succeedsB (behave 0 m) = false)
    (hok : behave 0 mOk = .page (some h))
    (hvalid : ((h != "") && is_valid_page (some h)) = true) :
    get_page use_browser behave perms N retry_delay =
      (some h, (L1 ++ [mOk]).map (Event.invoke 0)) := by
  obtain ⟨n, rfl⟩ : ∃ n, N = n + 1 := ⟨N - 1, by omega⟩
  have hsucc : succeedsB (behave 0 mOk) = true := by rw [hok]; exact hvalid
  have hres : resultOf (behave 0 mOk) = some h := by rw [hok]; rfl
  have htm : try_methods (behave 0) 0 (perms 0) =
      (some h, (L1 ++ [mOk]).map (Event.invoke 0)) := by
    rw [hord, try_methods_first_success (behave 0) 0 L1 L2 mOk hfail hsucc, hres]
  show get_page_run behave perms retry_delay (List.range (n + 1)) = _
  rw [List.range_succ_eq_map]
  rw [get_page_run_cons_succ retry_delay ((List.range n).map Nat.succ) (by rw [htm]),
      htm]

/-- Concrete instance of C5: browser raises, cloudscraper returns valid
content; fetch returns it after two invocations, never touching the other two
methods and never sleeping. -/
theorem c5_first_success_short_circuits_witness :
    get_page true
        (fun _ m => match m with
          | .browser => .exn "timeout"
          | .cloudscraperMethod => .page (some "ok")
          | _ => .page none)
        (fun _ => methods true) 1 5 =
      (some "ok", [.invoke 0 .browser, .invoke 0 .cloudscraperMethod]) :=
  c5_first_success_short_circuits true
    (fun _ m => match m with
      | .browser => .exn "timeout"
      | .cloudscraperMethod => .page (some "ok")
      | _ => .page none)
    (fun _ => methods true) 1 5
    [.browser] [.tlsClientMethod, .plainRequests] .cloudscraperMethod "ok"
    (by decide) rfl (by decide) rfl (by decide)

/-- Claim C6: the backoff delay slept after an unsuccessful attempt `a`
(1-based) is `retry_delay * a` — the linear, attempt-scaled policy — and it is
monotonically non-decreasing in the attempt number. -/
theorem c6_backoff_linear_monotone (retry_delay a : Nat) (ha : 1 ≤ a) :
    backoff_delay retry_delay (a - 1) = retry_delay * a
    ∧ ∀ b, a ≤ b → backoff_delay retry_delay (a - 1) ≤ backoff_delay retry_delay (b - 1) := by
  constructor
  · unfold backoff_delay
    congr 1
    omega
  · intro b hab
    unfold backoff_delay
    exact Nat.mul_le_mul_left retry_delay (by omega)

/-- Concrete instance of C6: with base delay 5, attempt 2 sleeps 10, no more
than attempt 3's 15. -/
theorem c6_backoff_linear_monotone_witness :
    backoff_delay 5 (2 - 1) = 5 * 2
    ∧ backoff_delay 5 (2 - 1) ≤ backoff_delay 5 (3 - 1) :=
  ⟨(c6_backoff_linear_monotone 5 2 (by decide)).1,
   (c6_backoff_linear_monotone 5 2 (by decide)).2 3 (by decide)⟩

/-- Claim C10: when every strategy invocation fails on every attempt, the
fetch yields no content and the public operations absorb the failure:
`search_products` returns the empty list and `get_product_details` the empty
dictionary, whatever the extractor would have produced. -/
theorem c10_failure_absorbed
    (parseS : String → List (List (String × String)))
    (parseD : String → String → List (String × String))
    (product_id : String) (use_browser : Bool)
    (behave : Nat → MethodId → MethodResult) (perms : Nat → List MethodId)
    (max_retries retry_delay : Nat)
    (hfail : ∀ a m, succeedsB (behave a m) = false) :
    search_products parseS use_browser behave perms max_retries retry_delay = []
    ∧ get_product_details parseD product_id use_browser behave perms
        max_retries retry_delay = [] := by
  have hget : (get_page use_browser behave perms max_retries retry_delay).1 = none := by
    rw [show get_page use_browser behave perms max_retries retry_delay
          = get_page_run behave perms retry_delay (List.range max_retries) from rfl,
        get_page_run_all_fail behave perms retry_delay hfail (List.range max_retries)]
  constructor
  · unfold search_products
    rw [hget]
  · unfold get_product_details
    rw [hget]

/-- Concrete instance of C10: all strategies raise; even with extractors that
would return non-empty records, both public operations return empty. -/
theorem c10_failure_absorbed_witness :
    search_products (fun _ => [[("asin", "B000")]]) true
        (fun _ _ => .exn "e") (fun _ => methods true) 3 5 = []
    ∧ get_product_details (fun _ pid => [("asin", pid)]) "B000" true
        (fun _ _ => .exn "e") (fun _ => methods true) 3 5 = [] :=
  c10_failure_absorbed (fun _ => [[("asin", "B000")]]) (fun _ pid => [("asin", pid)])
    "B000" true (fun _ _ => .exn "e") (fun _ => methods true) 3 5 (fun _ _ => rfl)

/-- Claim C4 (code bug): the rotation cursor can be left pointing past the end
of the pool.  From the reachable state `proxies = ["a","b","c"]`, two
`get_proxy` calls advance the cursor to 2; `mark_bad_proxy "a"` shrinks the
pool to `["b","c"]` without touching the cursor; the next `get_proxy` then
evaluates `self.proxies[2]` on a 2-element list and raises `IndexError`
(modelled as the faulting outcome `none`). -/
theorem c4_cursor_out_of_bounds_fault :
    pm_run (ProxyManager.init ["a", "b", "c"]) [.next, .next, .markBad "a", .next]
      = none
    ∧ pm_run (ProxyManager.init ["a", "b", "c"]) [.next, .next, .markBad "a"]
      = some ([some "a", some "b"], ⟨["b", "c"], 2⟩)
    ∧ get_proxy ⟨["b", "c"], 2⟩ = none := by
  refine ⟨by decide, by decide, by decide⟩

/-- Counterexample to C7 as stated: the constructor does not de-duplicate a
passed-in proxy list and `list.remove` removes only the first occurrence, so
after `mark_bad_proxy "p"` on the pool `["p","p"]` the very next `get_proxy`
returns `"p"` again. -/
theorem c7_counterexample_duplicate_proxy :
    pm_run (mark_bad_proxy (ProxyManager.init ["p", "p"]) "p") [.next]
      = some ([some "p"], ⟨["p"], 0⟩) := by decide

theorem get_proxy_eq_some {s : ProxyManager} {o : Option String} {s' : ProxyManager}
    (h : get_proxy s = some (o, s')) :
    s'.proxies = s.proxies ∧ ∀ q, o = some q → q ∈ s.proxies := by
  unfold get_proxy at h
  by_cases he : s.proxies = []
  · rw [if_pos he] at h
    simp only [Option.some.injEq, Prod.mk.injEq] at h
    obtain ⟨rfl, rfl⟩ := h
    exact ⟨rfl, fun q hq => by simp at hq⟩
  · rw [if_neg he] at h
    by_cases hlt : s.current_index < s.proxies.length
    · rw [dif_pos hlt] at h
      simp only [Option.some.injEq, Prod.mk.injEq] at h
      obtain ⟨rfl, rfl⟩ := h
      refine ⟨rfl, fun q hq => ?_⟩
      injection hq with hq
      exact hq ▸ List.get_mem s.proxies s.current_index hlt
    · rw [dif_neg hlt] at h
      exact absurd h (by simp)

theorem pm_run_not_mem (p : String) :
    ∀ (ops : List PMOp) (s : ProxyManager) (outs : List (Option String))
      (sf : ProxyManager),
      p ∉ s.proxies → pm_run s ops = some (outs, sf) →
      (∀ o ∈ outs, o ≠ some p) ∧ p ∉ sf.proxies := by
  intro ops
  induction ops with
  | nil =>
    intro s outs sf hp hrun
    simp only [pm_run, Option.some.injEq, Prod.mk.injEq] at hrun
    obtain ⟨rfl, rfl⟩ := hrun
    exact ⟨fun o ho => absurd ho (List.not_mem_nil o), hp⟩
  | cons op ops ih =>
    intro s outs sf hp hrun
    cases op with
    | next =>
      cases hg : get_proxy s with
      | none =>
        simp only [pm_run, hg] at hrun
        exact Option.noConfusion hrun
      | some pr =>
        obtain ⟨o, s'⟩ := pr
        simp only [pm_run, hg] at hrun
        cases hrec : pm_run s' ops with
        | none =>
          simp only [hrec] at hrun
          exact Option.noConfusion hrun
        | some pr2 =>
          obtain ⟨outs', sf'⟩ := pr2
          simp only [hrec, Option.some.injEq, Prod.mk.injEq] at hrun
          obtain ⟨rfl, rfl⟩ := hrun
          obtain ⟨hs'eq, hmem⟩ := get_proxy_eq_some hg
          have hp' : p ∉ s'.proxies := by rw [hs'eq]; exact hp
          obtain ⟨ho, hsf⟩ := ih s' outs' sf' hp' hrec
          refine ⟨fun x hx => ?_, hsf⟩
          rcases List.mem_cons.mp hx with rfl | hx'
          · intro hxp
            exact hp (hmem p hxp)
          · exact ho x hx'
    | markBad q =>
      simp only [pm_run] at hrun
      have hp' : p ∉ (mark_bad_proxy s q).proxies :=
        fun hmem => hp (List.mem_of_mem_erase hmem)
      exact ih _ outs sf hp' hrun

theorem pm_run_empty_pool :
    ∀ (ops : List PMOp) (s : ProxyManager) (outs : List (Option String))
      (sf : ProxyManager),
      s.proxies = [] → pm_run s ops = some (outs, sf) →
      (∀ o ∈ outs, o = none) ∧ sf.proxies = [] := by
  intro ops
  induction ops with
  | nil =>
    intro s outs sf he hrun
    simp only [pm_run, Option.some.injEq, Prod.mk.injEq] at hrun
    obtain ⟨rfl, rfl⟩ := hrun
    exact ⟨fun o ho => absurd ho (List.not_mem_nil o), he⟩
  | cons op ops ih =>
    intro s outs sf he hrun
    cases op with
    | next =>
      have hg : get_proxy s = some (none, s) := by
        unfold get_proxy
        rw [if_pos he]
      simp only [pm_run, hg] at hrun
      cases hrec : pm_run s ops with
      | none =>
        simp only [hrec] at hrun
        exact Option.noConfusion hrun
      | some pr2 =>
        obtain ⟨outs', sf'⟩ := pr2
        simp only [hrec, Option.some.injEq, Prod.mk.injEq] at hrun
        obtain ⟨rfl, rfl⟩ := hrun
        obtain ⟨ho, hsf⟩ := ih s outs' sf' he hrec
        refine ⟨fun x hx => ?_, hsf⟩
        rcases List.mem_cons.mp hx with rfl | hx'
        · rfl
        · exact ho x hx'
    | markBad q =>
      simp only [pm_run] at hrun
      have he' : (mark_bad_proxy s q).proxies = [] := by
        show s.proxies.erase q = []
        rw [he]
        rfl
      exact ih _ outs sf he' hrun

/-- Claim C7 (amended): provided `p` occurs at most once in the pool (which
holds for file-loaded pools, de-duplicated on load, but not for a duplicated
in-memory list), after `mark_bad_proxy p` no later `get_proxy` output in any
operation sequence equals `p`; and once the pool is empty — in particular
after every proxy has been marked bad — every later `get_proxy` returns
`None` and the pool stays empty. -/
theorem c7_markbad_permanent (s : ProxyManager) (p : String)
    (hcount : s.proxies.count p ≤ 1) (ops : List PMOp)
    (outs : List (Option String)) (sf : ProxyManager)
    (hrun : pm_run (mark_bad_proxy s p) ops = some (outs, sf))
    (s2 : ProxyManager) (ops2 : List PMOp) (outs2 : List (Option String))
    (sf2 : ProxyManager) (hempty : s2.proxies = [])
    (hrun2 : pm_run s2 ops2 = some (outs2, sf2)) :
    outs.all (fun o => o != some p) = true
    ∧ outs2.all (fun o => o == none) = true
    ∧ sf2.proxies = [] := by
  have hnot : p ∉ (mark_bad_proxy s p).proxies := by
    show p ∉ s.proxies.erase p
    have hz : (s.proxies.erase p).count p = 0 := by
      rw [List.count_erase_self]
      omega
    exact List.count_eq_zero.mp hz
  obtain ⟨h1, _⟩ := pm_run_not_mem p ops (mark_bad_proxy s p) outs sf hnot hrun
  obtain ⟨h2, h3⟩ := pm_run_empty_pool ops2 s2 outs2 sf2 hempty hrun2
  refine ⟨?_, ?_, h3⟩
  · rw [List.all_eq_true]
    intro o ho
    exact bne_iff_ne.mpr (h1 o ho)
  · rw [List.all_eq_true]
    intro o ho
    exact beq_iff_eq.mpr (h2 o ho)

/-- Concrete instance of the amended C7: from pool `["a","b"]`, after
`mark_bad_proxy "a"` two rotations only ever return `"b"`; and on an emptied
pool every call returns `None`. -/
theorem c7_markbad_permanent_witness :
    ([some "b", some "b"] : List (Option String)).all (fun o => o != some "a") = true
    ∧ ([none, none] : List (Option String)).all (fun o => o == none) = true
    ∧ (ProxyManager.mk [] 0).proxies = [] :=
  c7_markbad_permanent (ProxyManager.init ["a", "b"]) "a" (by decide)
    [.next, .next] [some "b", some "b"] ⟨["b"], 0⟩ (by decide)
    (ProxyManager.mk [] 0) [.next, .markBad "x", .next] [none, none]
    (ProxyManager.mk [] 0) rfl (by decide)

theorem lastValueFor_foldl (k : String × String × String) :
    ∀ (cs : List Cookie) (acc : Option String),
      cs.foldl (fun acc c => if k = cookieKey c then some c.value else acc) acc =
        match lastValueFor cs k with
        | some v => some v
        | none => acc := by
  intro cs
  induction cs with
  | nil => intro acc; rfl
  | cons d ds ih =>
    intro acc
    show ds.foldl _ (if k = cookieKey d then some d.value else acc) = _
    rw [ih]
    have hscrut : lastValueFor (d :: ds) k =
        match lastValueFor ds k with
        | some v => some v
        | none => if k = cookieKey d then some d.value else none := by
      show ds.foldl _ (if k = cookieKey d then some d.value else none) = _
      rw [ih]
    rw [hscrut]
    cases lastValueFor ds k with
    | some v => rfl
    | none =>
      by_cases hk : k = cookieKey d
      · rw [if_pos hk, if_pos hk]
      · rw [if_neg hk, if_neg hk]

theorem update_from_response_lookup :
    ∀ (cs : List Cookie) (jar : CookieJarMap) (k : String × String × String),
      update_from_response jar cs k =
        match lastValueFor cs k with
        | some v => some v
        | none => jar k := by
  intro cs
  induction cs with
  | nil => intro jar k; rfl
  | cons c cs ih =>
    intro jar k
    show update_from_response (set_cookie jar c) cs k = _
    rw [ih]
    have hscrut : lastValueFor (c :: cs) k =
        match lastValueFor cs k with
        | some v => some v
        | none => if k = cookieKey c then some c.value else none := by
      show cs.foldl _ (if k = cookieKey c then some c.value else none) = _
      rw [lastValueFor_foldl]
    rw [hscrut]
    cases lastValueFor cs k with
    | some v => rfl
    | none =>
      show set_cookie jar c k = _
      unfold set_cookie
      by_cases hk : k = cookieKey c
      · rw [if_pos hk, if_pos hk]
      · rw [if_neg hk, if_neg hk]

/-- Claim C8: cookie merge is idempotent — applying
`update_from_response` twice with the same cookie set yields the same jar as
applying it once (storage is overwrite-by-key, the last same-keyed cookie
winning both times). -/
theorem c8_cookie_merge_idempotent (jar : CookieJarMap) (cookies : List Cookie) :
    update_from_response (update_from_response jar cookies) cookies =
      update_from_response jar cookies := by
  funext k
  rw [update_from_response_lookup cookies (update_from_response jar cookies) k,
      update_from_response_lookup cookies jar k]
  cases hlv : lastValueFor cookies k with
  | some v => rfl
  | none => rfl

/-- Claim C9: when a fingerprint-emulating client strategy (cloudscraper or
tls_client) hits a technical failure, it reinitializes its internal session
with the freshly drawn user agent `uas s.uaIndex` — advancing the rotator —
before propagating the failure, so the next invocation starts from newly
built sessions; a successful response leaves the sessions untouched. -/
theorem c9_reinit_on_failure (uas : Nat → String) (s : CFState) (e r : String) :
    get_with_cloudscraper uas s (.error e) = (.error e, init_scrapers uas s)
    ∧ get_with_tls_client uas s (.error e) = (.error e, init_scrapers uas s)
    ∧ (init_scrapers uas s).scraper = some { user_agent := uas s.uaIndex }
    ∧ (init_scrapers uas s).tlsClient = some { user_agent := uas s.uaIndex }
    ∧ (init_scrapers uas s).uaIndex = s.uaIndex + 1
    ∧ get_with_cloudscraper uas s (.ok r) = (.ok r, s)
    ∧ get_with_tls_client uas s (.ok r) = (.ok r, s) :=
  ⟨rfl, rfl, rfl, rfl, rfl, rfl, rfl⟩
